import Mathlib

/-!
Verification of the connection-oriented TCP server core of the
GolangTutorial corpus: the echo server, the chat broadcasters and the
heartbeat monitor (networking/network_tcp.go and the TCP sections of the
networking tutorial document).  Strings are modelled as `List Char`;
Go maps are modelled as association lists with distinct keys; time is
modelled as `Nat` seconds.
-/

set_option autoImplicit false

namespace GoTutorial

/-- The whitespace predicate of Go's `unicode.IsSpace`, which is what
`strings.TrimSpace` tests character by character: the Unicode White_Space
runes — tab, newline, vertical tab, form feed, carriage return, space,
NEL (U+0085), NBSP (U+00A0), and above Latin-1 the runes U+1680,
U+2000..U+200A, U+2028, U+2029, U+202F, U+205F and U+3000. -/
def goIsSpace (c : Char) : Bool :=
  c = ' ' || c = '\t' || c = '\n' || c = Char.ofNat 11 || c = Char.ofNat 12 ||
  c = '\r' || c = Char.ofNat 133 || c = Char.ofNat 160 ||
  c = Char.ofNat 0x1680 ||
  (0x2000 ≤ c.toNat && c.toNat ≤ 0x200A) ||
  c = Char.ofNat 0x2028 || c = Char.ofNat 0x2029 ||
  c = Char.ofNat 0x202F || c = Char.ofNat 0x205F || c = Char.ofNat 0x3000

/-- Drop the maximal whitespace prefix (left half of `strings.TrimSpace`). -/
def trimLeft (s : List Char) : List Char := s.dropWhile goIsSpace

/-- Drop the maximal whitespace suffix (right half of `strings.TrimSpace`). -/
def trimRight (s : List Char) : List Char := (s.reverse.dropWhile goIsSpace).reverse

/-- Go's `strings.TrimSpace`: drop leading and trailing whitespace. -/
def trimSpace (s : List Char) : List Char := trimRight (trimLeft s)

/-- The `switch` statement of `TCPServer.processMessage` in
networking/network_tcp.go (lines 125-141), applied to the already-trimmed
message.  The two readings of the wall clock,
`time.Now().Format("2006-01-02 15:04:05")` and
`time.Now().Format("2006-01-02")`, are the parameters `now` and `today`;
`strings.TrimPrefix(m, "echo:")` on a string that has the prefix is
`m.drop 5`. -/
def switchMessage (now today : List Char) (m : List Char) : List Char :=
  if m = "ping".data then ("pong".data)
  else if m = "time".data then now
  else if m = "date".data then today
  else if m = "quit".data then ("BYE".data)
  else if m = "echo".data then ("请提供要回显的内容，格式: echo:<内容>".data)
  else if ("echo:".data).isPrefixOf m then m.drop 5
  else ("未知命令: ".data) ++ m

/-- The function `TCPServer.processMessage` of networking/network_tcp.go
(lines 121-142): `message = strings.TrimSpace(message)` followed by the
`switch` on the trimmed message. -/
def processMessage (now today : List Char) (message : List Char) : List Char :=
  switchMessage now today (trimSpace message)

/-! ### Lemmas about the trimming model -/

theorem dropWhile_append_of_all (p : Char → Bool) (ws xs : List Char)
    (h : ∀ c ∈ ws, p c = true) :
    List.dropWhile p (ws ++ xs) = List.dropWhile p xs := by
  induction ws with
  | nil => rfl
  | cons w ws ih =>
      have hw : p w = true := h w (List.mem_cons_self w ws)
      simp only [List.cons_append, List.dropWhile_cons, hw, if_true]
      exact ih fun c hc => h c (List.mem_cons_of_mem w hc)

theorem dropWhile_all_nil (p : Char → Bool) (ws : List Char)
    (h : ∀ c ∈ ws, p c = true) : List.dropWhile p ws = [] :=
  List.dropWhile_eq_nil_iff.mpr h

theorem dropWhile_dropWhile (p : Char → Bool) (l : List Char) :
    List.dropWhile p (List.dropWhile p l) = List.dropWhile p l := by
  induction l with
  | nil => rfl
  | cons a l ih =>
      by_cases ha : p a = true
      · simp only [List.dropWhile_cons, ha, if_true]; exact ih
      · simp only [List.dropWhile_cons, ha, if_false, Bool.false_eq_true]

theorem trimLeft_append_of_all_space (ws xs : List Char)
    (h : ∀ c ∈ ws, goIsSpace c = true) : trimLeft (ws ++ xs) = trimLeft xs :=
  dropWhile_append_of_all goIsSpace ws xs h

theorem trimRight_append_of_all_space (xs ws : List Char)
    (h : ∀ c ∈ ws, goIsSpace c = true) : trimRight (xs ++ ws) = trimRight xs := by
  unfold trimRight
  rw [List.reverse_append,
    dropWhile_append_of_all goIsSpace ws.reverse xs.reverse
      (fun c hc => h c (List.mem_reverse.mp hc))]

theorem trimLeft_trimLeft (xs : List Char) : trimLeft (trimLeft xs) = trimLeft xs :=
  dropWhile_dropWhile goIsSpace xs

theorem trimRight_trimRight (xs : List Char) :
    trimRight (trimRight xs) = trimRight xs := by
  unfold trimRight
  rw [List.reverse_reverse, dropWhile_dropWhile goIsSpace xs.reverse]

/-- Splitting `trimRight` over an append. -/
theorem trimRight_append (xs ys : List Char) :
    trimRight (xs ++ ys) =
      if trimRight ys = [] then trimRight xs else xs ++ trimRight ys := by
  unfold trimRight
  rw [List.reverse_append, List.dropWhile_append]
  by_cases hys : List.dropWhile goIsSpace ys.reverse = []
  · have hiff : trimRight ys = [] := by
      unfold trimRight; rw [hys]; rfl
    simp [hys, hiff, List.isEmpty_iff]
  · have hiff : ¬ trimRight ys = [] := by
      unfold trimRight; rw [List.reverse_eq_nil_iff]; exact hys
    simp [hys, hiff, List.isEmpty_iff, List.reverse_append]

theorem trimLeft_eq_self_of_head_nonspace (a : Char) (t : List Char)
    (ha : goIsSpace a = false) : trimLeft (a :: t) = a :: t := by
  simp only [trimLeft, List.dropWhile_cons, ha, Bool.false_eq_true, if_false]

theorem trimLeft_trimRight_of_fixed (ys : List Char) (hys : trimLeft ys = ys) :
    trimLeft (trimRight ys) = trimRight ys := by
  cases ys with
  | nil => rfl
  | cons a t =>
      have ha : goIsSpace a = false := by
        cases h : goIsSpace a with
        | false => rfl
        | true =>
            exfalso
            have hdrop : List.dropWhile goIsSpace (a :: t) = a :: t := hys
            rw [List.dropWhile_cons, h, if_pos rfl] at hdrop
            have hle := (List.dropWhile_sublist (l := t) goIsSpace).length_le
            rw [hdrop] at hle
            simp at hle
      have hsplit : trimRight (a :: t) =
          if trimRight t = [] then trimRight [a] else [a] ++ trimRight t := by
        have := trimRight_append [a] t
        simpa using this
      rw [hsplit]
      by_cases ht : trimRight t = []
      · rw [if_pos ht]
        have hra : trimRight [a] = [a] := by
          simp [trimRight, List.dropWhile_cons, ha]
        rw [hra]
        exact trimLeft_eq_self_of_head_nonspace a [] ha
      · rw [if_neg ht, List.singleton_append]
        exact trimLeft_eq_self_of_head_nonspace a (trimRight t) ha

theorem trimSpace_trimSpace (xs : List Char) :
    trimSpace (trimSpace xs) = trimSpace xs := by
  unfold trimSpace
  rw [trimLeft_trimRight_of_fixed (trimLeft xs) (trimLeft_trimLeft xs),
    trimRight_trimRight]

/-- Padding a message with whitespace on either side does not change its
trimmed form. -/
theorem trimSpace_pad (wl wr m : List Char)
    (hl : ∀ c ∈ wl, goIsSpace c = true) (hr : ∀ c ∈ wr, goIsSpace c = true) :
    trimSpace (wl ++ m ++ wr) = trimSpace m := by
  have h1 : trimSpace (wl ++ (m ++ wr)) = trimSpace (m ++ wr) := by
    unfold trimSpace
    rw [trimLeft_append_of_all_space wl (m ++ wr) hl]
  have h2 : trimSpace (m ++ wr) = trimSpace m := by
    unfold trimSpace
    by_cases hm : trimLeft m = []
    · have hmw : trimLeft (m ++ wr) = [] := by
        unfold trimLeft
        rw [List.dropWhile_append]
        have : (List.dropWhile goIsSpace m).isEmpty = true := by
          rw [List.isEmpty_iff]; exact hm
        rw [if_pos this]
        exact dropWhile_all_nil goIsSpace wr hr
      rw [hm, hmw]
    · have hmw : trimLeft (m ++ wr) = trimLeft m ++ wr := by
        unfold trimLeft
        rw [List.dropWhile_append]
        have : ¬ (List.dropWhile goIsSpace m).isEmpty = true := by
          rw [List.isEmpty_iff]; exact hm
        rw [if_neg this]
      rw [hmw, trimRight_append_of_all_space (trimLeft m) wr hr]
  rw [List.append_assoc, h1, h2]

/-! ### Association-list model of Go maps

The servers keep their registries in Go maps (`map[string]*Client`,
`map[net.Conn]string`, `map[net.Conn]*ClientInfo`).  A map is modelled as
an association list whose keys are distinct; assignment `m[k] = v`
overwrites in place or appends, `delete(m, k)` drops the key, and reading
is `find?` on the key. -/

/-- Go map indexing `m[k]` (the `value, ok` form with `ok` = `isSome`). -/
def goMapLookup {κ α : Type} [BEq κ] (m : List (κ × α)) (k : κ) : Option α :=
  (m.find? (fun e => e.fst == k)).map Prod.snd

/-- Go map assignment `m[k] = v`: overwrite the entry for `k` if the key is
present, otherwise append a new entry. -/
def goMapAssign {κ α : Type} [BEq κ] (m : List (κ × α)) (k : κ) (v : α) :
    List (κ × α) :=
  if m.any (fun e => e.fst == k) then
    m.map (fun e => if e.fst == k then (k, v) else e)
  else m ++ [(k, v)]

/-- Go map deletion `delete(m, k)`. -/
def goMapDelete {κ α : Type} [BEq κ] (m : List (κ × α)) (k : κ) :
    List (κ × α) :=
  m.filter (fun e => !(e.fst == k))

/-! ### The chat broadcaster of networking/network_tcp.go (ChatServer)

`ChatServer` keeps `clients : map[net.Conn]string`; `handleBroadcast`
ranges over the map keys and does `fmt.Fprintf(conn, "%s\n", msg)` on each.
Connections are identified by `Nat`; the bytes written to a connection are
collected in a buffer function `Nat → List (List Char)` (one entry per
written line). -/

/-- One `fmt.Fprintf(conn, "%s\n", msg)`: append the line to that
connection's outbound byte stream. -/
def writeLine (bufs : Nat → List (List Char)) (c : Nat) (line : List Char) :
    Nat → List (List Char) :=
  fun d => if d = c then bufs d ++ [line] else bufs d

/-- The body of `ChatServer.handleBroadcast` (network_tcp.go lines 273-282)
for one message taken from the `broadcast` channel: write `msg ++ "\n"` to
every connection in the `clients` map. -/
def handleBroadcast (clients : List (Nat × List Char)) (msg : List Char)
    (bufs : Nat → List (List Char)) : Nat → List (List Char) :=
  match clients with
  | [] => bufs
  | e :: rest => handleBroadcast rest msg (writeLine bufs e.fst (msg ++ ['\n']))

/-- The chat line built by `ChatServer.handleChatClient` (line 309):
`fmt.Sprintf("[%s] %s", username, msg)`. -/
def chatMessage (username msg : List Char) : List Char :=
  ('[' :: username) ++ (']' :: ' ' :: msg)

/-- State touched by `ChatServer.handleChatClient`: the `clients` map and
which sockets are still open. -/
structure ChatState where
  clients : List (Nat × List Char)
  socketOpen : Nat → Bool

/-- The epilogue of `ChatServer.handleChatClient` (lines 306-317 with the
deferred `conn.Close()`), reached when the client sends `/quit`:
`delete(cs.clients, conn)` and close the socket. -/
def handleChatQuit (s : ChatState) (conn : Nat) : ChatState :=
  { clients := goMapDelete s.clients conn,
    socketOpen := fun d => if d = conn then false else s.socketOpen d }

/-! ### The chat server of the networking tutorial (part_000 lines 389-507)

This `TCPServer` keeps `clients : map[string]*Client` keyed by the client
name; each `Client` owns `sendChan : chan string` of capacity 100.
`broadcast` does a non-blocking `select`-with-`default` send into every
client's channel. -/

/-- Capacity of `Client.sendChan` (`make(chan string, 100)`, line 432). -/
def sendChanCap : Nat := 100

/-- The `Client` of part_000 line 395-399; `connOpen` models whether
`client.conn` has been closed. -/
structure Client where
  name : List Char
  sendChan : List (List Char)
  connOpen : Bool
deriving DecidableEq

/-- One arm of `TCPServer.broadcast`'s fan-out loop (part_000 lines
493-499): `select { case client.sendChan <- message: default: }` — enqueue
if the channel has room, otherwise drop the message and leave the client
untouched. -/
def trySend (c : Client) (message : List Char) : Client :=
  if c.sendChan.length < sendChanCap then
    { c with sendChan := c.sendChan ++ [message] }
  else c

/-- `TCPServer.broadcast` (part_000 lines 489-500): try a non-blocking
send to every registered client. -/
def broadcast (clients : List Client) (message : List Char) : List Client :=
  clients.map (fun c => trySend c message)

/-- The chat line built in `TCPServer.readMessages` (part_000 line 473):
`fmt.Sprintf("[%s]: %s\n", client.name, message)`. -/
def tutorialChatLine (name message : List Char) : List Char :=
  ('[' :: name) ++ (']' :: ':' :: ' ' :: message) ++ ['\n']

/-- The `/quit` branch of `TCPServer.readMessages` (part_000 lines
469-472): `client.conn.Close(); return` — the socket is closed, and the
function returns without touching `s.clients`. -/
def readMessagesQuit (clients : List Client) (sender : List Char) :
    List Client :=
  clients.map (fun c => if c.name == sender then { c with connOpen := false } else c)

/-- The read-error branch of `TCPServer.readMessages` (part_000 lines
461-467): deregister the client and broadcast the leave notice
`fmt.Sprintf("%s 离开聊天室\n", client.name)`. -/
def readMessagesError (clients : List Client) (sender : List Char) :
    List Client :=
  broadcast (clients.filter (fun c => !(c.name == sender)))
    (sender ++ (" 离开聊天室\n".data))

/-! ### The heartbeat monitor (part_000 lines 593-707)

`HeartbeatServer` keeps `listeners : map[net.Conn]*ClientInfo`; the
checker goroutine wakes every `heartbeatInterval` and evicts every
connection whose `lastSeen` is more than `heartbeatTimeout` ago.
Connections are `Nat` identifiers, times are `Nat` seconds. -/

/-- `heartbeatInterval = 30 * time.Second` (part_000 line 607). -/
def heartbeatInterval : Nat := 30

/-- `heartbeatTimeout = 90 * time.Second` (part_000 line 608). -/
def heartbeatTimeout : Nat := 90

/-- State of the heartbeat server: the registry mapping each connection to
its `lastSeen` stamp, and the list of connections on which `conn.Close()`
has been called. -/
structure HBState where
  listeners : List (Nat × Nat)
  closed : List Nat

/-- The eviction test of `heartbeatChecker` (part_000 line 687):
`time.Since(client.lastSeen) > heartbeatTimeout`. -/
def sweepEvicts (timeout now lastSeen : Nat) : Bool :=
  decide (timeout < now - lastSeen)

/-- One sweep of `HeartbeatServer.heartbeatChecker` (part_000 lines
684-697) at time `now`: every connection whose `lastSeen` is older than
`timeout` is deleted from `listeners` and its socket closed. -/
def heartbeatSweep (timeout now : Nat) (s : HBState) : HBState :=
  { listeners := s.listeners.filter (fun cl => !sweepEvicts timeout now cl.snd),
    closed := s.closed ++
      (s.listeners.filter (fun cl => sweepEvicts timeout now cl.snd)).map Prod.fst }

/-- The refresh in `HeartbeatServer.handleConnection` (part_000 line 672):
on every received message, `client.lastSeen = time.Now()`. -/
def touchListener (ls : List (Nat × Nat)) (conn now : Nat) : List (Nat × Nat) :=
  ls.map (fun cl => if cl.fst = conn then (cl.fst, now) else cl)

/-- Sweep times of the checker: the ticker fires at
`t0 + k * interval` for `k = 1, 2, ...` after the server starts at `t0`. -/
def sweepTime (t0 interval k : Nat) : Nat := t0 + k * interval

/-! ### The echo server accept loop and shutdown (network_tcp.go 35-160) -/

/-- Outcome of one `listener.Accept()` call: a new connection, an error
that `net.Error.Temporary()` reports as temporary, or any other error. -/
inductive AcceptOutcome where
  | newConn
  | tempError
  | fatalError
deriving DecidableEq

/-- What the accept loop does with the outcome. -/
inductive LoopAction where
  | handleConn
  | retryAccept
  | stopLoop
deriving DecidableEq

/-- One iteration of the accept loop of `TCPServer.Start` in
network_tcp.go (lines 51-73): stop when `s.listener == nil` (set by
`Shutdown`); on a temporary `net.Error` log and `continue`; on any other
accept error return it (stopping the loop); otherwise handle the
connection. -/
def acceptStep (listenerOpen : Bool) (o : AcceptOutcome) : LoopAction :=
  if listenerOpen = false then .stopLoop
  else
    match o with
    | .newConn => .handleConn
    | .tempError => .retryAccept
    | .fatalError => .stopLoop

/-- One iteration of the accept loop of the tutorial's `TCPServer.Start`
(part_000 lines 417-424) and of `HeartbeatServer.Start` (lines 638-645):
on ANY accept error, log and `continue`. -/
def acceptStepTutorial (o : AcceptOutcome) : LoopAction :=
  match o with
  | .newConn => .handleConn
  | .tempError => .retryAccept
  | .fatalError => .retryAccept

/-- State touched by `TCPServer.Shutdown` of network_tcp.go: whether the
listener is open, and the sockets of the connections whose
`handleConnection` goroutines (counted by `s.wg`) have not yet finished.
This server has no registry of connections. -/
structure EchoServerState where
  listenerOpen : Bool
  activeConns : List Nat

/-- The mutations performed by `TCPServer.Shutdown` (network_tcp.go lines
146-160) before it blocks in `s.wg.Wait()`: close the listener and set it
to nil.  `Shutdown` touches nothing else; in particular it closes no
client connection (each handler closes its own socket when its read loop
ends). -/
def shutdownListenerPhase (s : EchoServerState) : EchoServerState :=
  { s with listenerOpen := false }

/-- `s.wg.Wait()` returns exactly when every `handleConnection` goroutine
has called `s.wg.Done()`, i.e. when no connection is still active. -/
def shutdownWaitDone (s : EchoServerState) : Prop := s.activeConns = []

/-! ### Register/deregister sequences over the registry key set

`TCPServer.handleConnection` registers with `s.clients[client.name] =
client` and `readMessages` deregisters with `delete(s.clients,
client.name)` (part_000 lines 441-443 and 462-464); `ChatServer` does the
same on `cs.clients` (network_tcp.go lines 296-298 and 313-315).  On the
key set of the map, assignment inserts the key if absent and deletion
removes it. -/

/-- A registration or deregistration of an identity. -/
inductive RegOp where
  | regOp (id : List Char)
  | deregOp (id : List Char)

/-- Effect of one operation on the set of registered identities: map
assignment makes the key present (unchanged if already there), `delete`
removes it. -/
def applyRegOp (m : List (List Char)) : RegOp → List (List Char)
  | .regOp id => if id ∈ m then m else m ++ [id]
  | .deregOp id => m.erase id

/-- The keys of the registry after a sequence of operations starting from
the empty map (`make(map[string]*Client)`). -/
def snapshotKeys (ops : List RegOp) : List (List Char) :=
  ops.foldl applyRegOp []

/-- Specification-side bookkeeping, modelled from the claim's words: an
identity is live after a sequence of operations when it has been
registered and not deregistered since; `b` is its liveness before the
sequence. -/
def liveAfter (b : Bool) (ops : List RegOp) (id : List Char) : Bool :=
  ops.foldl
    (fun a op =>
      match op with
      | .regOp j => if j = id then true else a
      | .deregOp j => if j = id then false else a) b

/-! ### Lemmas about the Go map model -/

theorem goMapLookup_delete_self {κ α : Type} [BEq κ] [LawfulBEq κ]
    (m : List (κ × α)) (k : κ) : goMapLookup (goMapDelete m k) k = none := by
  induction m with
  | nil => rfl
  | cons e rest ih =>
      by_cases he : (e.fst == k) = true
      · rw [goMapDelete, List.filter_cons]
        simp only [he, Bool.not_true, Bool.false_eq_true, if_false]
        exact ih
      · simp only [Bool.not_eq_true] at he
        rw [goMapDelete, List.filter_cons]
        simp only [he, Bool.not_false, if_true]
        rw [goMapLookup, List.find?_cons]
        simp only [he, Bool.false_eq_true, if_false]
        exact ih

theorem goMapLookup_delete_other {κ α : Type} [BEq κ] [LawfulBEq κ]
    (m : List (κ × α)) (k d : κ) (hd : d ≠ k) :
    goMapLookup (goMapDelete m k) d = goMapLookup m d := by
  induction m with
  | nil => rfl
  | cons e rest ih =>
      by_cases he : (e.fst == k) = true
      · have hek : e.fst = k := eq_of_beq he
        have hed : (e.fst == d) = false := by
          rw [hek]; exact beq_eq_false_iff_ne.mpr fun h => hd h.symm
        simpa [goMapDelete, goMapLookup, List.filter_cons, List.find?_cons, he, hed]
          using ih
      · simp only [Bool.not_eq_true] at he
        by_cases hed : (e.fst == d) = true
        · simp [goMapDelete, goMapLookup, List.filter_cons, List.find?_cons, he, hed]
        · simp only [Bool.not_eq_true] at hed
          simpa [goMapDelete, goMapLookup, List.filter_cons, List.find?_cons, he, hed]
            using ih

theorem goMapLookup_assign_self {κ α : Type} [BEq κ] [LawfulBEq κ]
    (m : List (κ × α)) (k : κ) (v : α) :
    goMapLookup (goMapAssign m k v) k = some v := by
  unfold goMapAssign
  by_cases hany : m.any (fun e => e.fst == k) = true
  · rw [if_pos hany]
    induction m with
    | nil => simp at hany
    | cons e rest ih =>
        by_cases he : (e.fst == k) = true
        · simp [goMapLookup, List.find?_cons, he]
        · simp only [Bool.not_eq_true] at he
          have hrest : rest.any (fun e => e.fst == k) = true := by
            simpa [List.any_cons, he] using hany
          simpa [goMapLookup, List.find?_cons, he] using ih hrest
  · rw [if_neg hany]
    have hnone : m.find? (fun e => e.fst == k) = none := by
      rw [List.find?_eq_none]
      intro e hmem
      simp only [List.any_eq_true, not_exists, not_and] at hany
      intro hk
      exact absurd hk (by simpa using hany e hmem)
    simp [goMapLookup, List.find?_append, hnone]

theorem goMapLookup_assign_other {κ α : Type} [BEq κ] [LawfulBEq κ]
    (m : List (κ × α)) (k d : κ) (v : α) (hd : d ≠ k) :
    goMapLookup (goMapAssign m k v) d = goMapLookup m d := by
  have hkd : (k == d) = false := beq_eq_false_iff_ne.mpr fun h => hd h.symm
  unfold goMapAssign
  by_cases hany : m.any (fun e => e.fst == k) = true
  · rw [if_pos hany]
    induction m with
    | nil => rfl
    | cons e rest ih =>
        by_cases he : (e.fst == k) = true
        · have hek : e.fst = k := eq_of_beq he
          have hed : (e.fst == d) = false := by rw [hek]; exact hkd
          by_cases hrest : rest.any (fun e => e.fst == k) = true
          · simpa [goMapLookup, List.find?_cons, he, hed, hkd] using ih hrest
          · have heq : rest.map (fun e => if e.fst == k then (k, v) else e) = rest := by
              conv_rhs => rw [← List.map_id rest]
              apply List.map_congr_left
              intro x hx
              have : (x.fst == k) = false := by
                by_contra hxk
                simp only [Bool.not_eq_false] at hxk
                exact hrest (List.any_eq_true.mpr ⟨x, hx, hxk⟩)
              simp [this]
            simp [goMapLookup, List.find?_cons, he, hed, hkd, heq]
        · simp only [Bool.not_eq_true] at he
          have hrest : rest.any (fun e => e.fst == k) = true := by
            simpa [List.any_cons, he] using hany
          by_cases hed : (e.fst == d) = true
          · simp [goMapLookup, List.find?_cons, he, hed]
          · simp only [Bool.not_eq_true] at hed
            simpa [goMapLookup, List.find?_cons, he, hed] using ih hrest
  · rw [if_neg hany]
    unfold goMapLookup
    rw [List.find?_append]
    have h2 : List.find? (fun e => e.fst == d) [(k, v)] = none := by
      simp [List.find?_cons, hkd]
    rw [h2, Option.or_none]

/-! ### Concrete scenario data -/

/-- The registered client record named alice of the tutorial chat server. -/
def aliceEntry : Client := { name := "alice".data, sendChan := [], connOpen := true }

/-- The registered client record named bob of the tutorial chat server. -/
def bobEntry : Client := { name := "bob".data, sendChan := [], connOpen := true }

/-- An alice whose outbound channel is full to its capacity of 100. -/
def fullAlice : Client :=
  { name := "alice".data, sendChan := List.replicate sendChanCap ("x".data),
    connOpen := true }

/-- A `ChatServer` state with alice on connection 0 and bob on
connection 1, both sockets open. -/
def chatScenario : ChatState :=
  { clients := [(0, ("alice".data)), (1, ("bob".data))], socketOpen := fun _ => true }

/-! ### Claim theorems -/

/-- C5, counterexample: in the tutorial chat server (part_000), a client
that sends `/quit` has its socket closed but is NOT deregistered — the
`/quit` branch of `readMessages` returns without deleting from
`s.clients`, so alice's name is still a registry key afterwards,
contradicting the claim that the client is deregistered. -/
theorem readMessagesQuit_keeps_registry_entry :
    readMessagesQuit [aliceEntry, bobEntry] ("alice".data) =
      [{ aliceEntry with connOpen := false }, bobEntry] ∧
    ("alice".data) ∈
      (readMessagesQuit [aliceEntry, bobEntry] ("alice".data)).map Client.name := by
  decide

/-- C5 as amended: on `/quit`, the quitting client's socket is closed and
every other connection is untouched; in `ChatServer` (network_tcp.go) the
client is moreover deleted from the `clients` map, while in the tutorial
chat server (part_000) the `/quit` branch leaves the registry key set
unchanged — deregistration there happens only on the read-error path. -/
theorem quit_behavior (s : ChatState) (conn d : Nat) (hd : d ≠ conn)
    (clients : List Client) (sender : List Char) (c : Client) (hc : c ∈ clients) :
    goMapLookup (handleChatQuit s conn).clients conn = none ∧
    (handleChatQuit s conn).socketOpen conn = false ∧
    goMapLookup (handleChatQuit s conn).clients d = goMapLookup s.clients d ∧
    (handleChatQuit s conn).socketOpen d = s.socketOpen d ∧
    (readMessagesQuit clients sender).map Client.name = clients.map Client.name ∧
    (c.name = sender →
      { c with connOpen := false } ∈ readMessagesQuit clients sender) ∧
    (c.name ≠ sender → c ∈ readMessagesQuit clients sender) := by
  refine ⟨goMapLookup_delete_self s.clients conn, ?_,
    goMapLookup_delete_other s.clients conn d hd, ?_, ?_, ?_, ?_⟩
  · simp [handleChatQuit]
  · simp [handleChatQuit, hd]
  · rw [readMessagesQuit, List.map_map]
    apply List.map_congr_left
    intro x _
    by_cases hx : x.name = sender <;> simp [hx]
  · intro hcs
    exact List.mem_map.mpr ⟨c, hc, by simp [hcs]⟩
  · intro hcs
    refine List.mem_map.mpr ⟨c, hc, ?_⟩
    have hb : (c.name == sender) = false := beq_eq_false_iff_ne.mpr hcs
    simp [hb]

/-- C5 witness: the amended statement evaluated on the two-client
scenario, with alice quitting. -/
theorem quit_behavior_witness :
    goMapLookup (handleChatQuit chatScenario 0).clients 0 = none ∧
    (handleChatQuit chatScenario 0).socketOpen 0 = false ∧
    goMapLookup (handleChatQuit chatScenario 0).clients 1 =
      goMapLookup chatScenario.clients 1 ∧
    (handleChatQuit chatScenario 0).socketOpen 1 = chatScenario.socketOpen 1 ∧
    (readMessagesQuit [aliceEntry, bobEntry] ("alice".data)).map Client.name =
      ([aliceEntry, bobEntry] : List Client).map Client.name ∧
    (aliceEntry.name = ("alice".data) →
      { aliceEntry with connOpen := false } ∈
        readMessagesQuit [aliceEntry, bobEntry] ("alice".data)) ∧
    (aliceEntry.name ≠ ("alice".data) →
      aliceEntry ∈ readMessagesQuit [aliceEntry, bobEntry] ("alice".data)) :=
  quit_behavior chatScenario 0 1 (by decide) [aliceEntry, bobEntry]
    ("alice".data) aliceEntry (by decide)

/-- C7, counterexample: registering an identity that is already present is
not a no-op — Go map assignment overwrites, so after registering alice a
second time with a different connection the registry maps alice to the new
connection. -/
theorem register_existing_overwrites_counterexample :
    goMapLookup (goMapAssign [(("alice".data), 1)] ("alice".data) 2)
      ("alice".data) = some 2 ∧
    (some 2 : Option Nat) ≠ some 1 := by
  decide

/-- C7 as amended: `Register` on an identity already present overwrites
the registry's mapping for that identity with the new connection
(last-write-wins) instead of failing; mappings for all other identities
are unchanged. -/
theorem register_existing_overwrites {κ α : Type} [BEq κ] [LawfulBEq κ]
    (m : List (κ × α)) (k d : κ) (v : α) (hd : d ≠ k) :
    goMapLookup (goMapAssign m k v) k = some v ∧
    goMapLookup (goMapAssign m k v) d = goMapLookup m d :=
  ⟨goMapLookup_assign_self m k v, goMapLookup_assign_other m k d v hd⟩

/-- C7 witness: re-registering alice over an existing entry. -/
theorem register_existing_overwrites_witness :
    goMapLookup (goMapAssign [(("alice".data), 1)] ("alice".data) 2)
      ("alice".data) = some 2 ∧
    goMapLookup (goMapAssign [(("alice".data), 1)] ("alice".data) 2)
      ("bob".data) = goMapLookup [(("alice".data), 1)] ("bob".data) :=
  register_existing_overwrites [(("alice".data), 1)] ("alice".data)
    ("bob".data) 2 (by decide)

theorem applyRegOp_nodup (m : List (List Char)) (op : RegOp) (h : m.Nodup) :
    (applyRegOp m op).Nodup := by
  cases op with
  | regOp id =>
      by_cases hid : id ∈ m
      · simpa [applyRegOp, hid] using h
      · simp [applyRegOp, hid, List.nodup_append, h, List.disjoint_singleton]
  | deregOp id => exact h.erase id

theorem mem_foldl_applyRegOp (ops : List RegOp) (id : List Char) :
    ∀ (m : List (List Char)) (b : Bool), m.Nodup → (id ∈ m ↔ b = true) →
      (id ∈ ops.foldl applyRegOp m ↔ liveAfter b ops id = true) := by
  induction ops with
  | nil =>
      intro m b _ hmb
      simpa [liveAfter] using hmb
  | cons op rest ih =>
      intro m b hnd hmb
      rw [List.foldl_cons]
      cases op with
      | regOp j =>
          have hstep : liveAfter b (.regOp j :: rest) id =
              liveAfter (if j = id then true else b) rest id := rfl
          rw [hstep]
          apply ih _ _ (applyRegOp_nodup m _ hnd)
          by_cases hj : j = id
          · subst hj
            by_cases hjm : j ∈ m <;> simp [applyRegOp, hjm]
          · have hij : ¬ id = j := fun h => hj h.symm
            by_cases hjm : j ∈ m
            · simpa [applyRegOp, hjm, hj] using hmb
            · simpa [applyRegOp, hjm, hj, hij] using hmb
      | deregOp j =>
          have hstep : liveAfter b (.deregOp j :: rest) id =
              liveAfter (if j = id then false else b) rest id := rfl
          rw [hstep]
          apply ih _ _ (applyRegOp_nodup m _ hnd)
          by_cases hj : j = id
          · subst hj
            simp [applyRegOp, hnd.mem_erase_iff]
          · have hij : id ≠ j := fun h => hj h.symm
            show id ∈ m.erase j ↔ _
            rw [hnd.mem_erase_iff]
            simpa [hij, hj] using hmb

/-- C3: an identity is in the registry snapshot after a sequence of
register/deregister operations (starting from the empty map) exactly when
it has been registered and not deregistered since — no lost updates, no
phantom entries. -/
theorem snapshot_iff_registered (ops : List RegOp) (id : List Char) :
    id ∈ snapshotKeys ops ↔ liveAfter false ops id = true :=
  mem_foldl_applyRegOp ops id [] false List.nodup_nil (by simp)

/-- C1, counterexample: in `ChatServer`, after alice (connection 0, with
bob on connection 1) sends "hi", the broadcast writes `[alice] hi\n` to
EVERY connection of the clients map — alice's own outbound stream receives
it too, so there is no echo-suppression. -/
theorem chat_broadcast_echoes_sender :
    handleBroadcast [(0, ("alice".data)), (1, ("bob".data))]
        (chatMessage ("alice".data) ("hi".data))
        (fun _ => ([] : List (List Char))) 0 = [("[alice] hi\n".data)] ∧
    handleBroadcast [(0, ("alice".data)), (1, ("bob".data))]
        (chatMessage ("alice".data) ("hi".data))
        (fun _ => ([] : List (List Char))) 1 = [("[alice] hi\n".data)] ∧
    ([("[alice] hi\n".data)] : List (List Char)) ≠ [] := by
  decide

/-- C1 as amended: one `handleBroadcast` round appends the line
`msg ++ "\n"` exactly once to the outbound stream of every connection in
the clients map — including the sender's — and leaves every other
connection's stream untouched. -/
theorem handleBroadcast_delivers (msg : List Char) (c : Nat) :
    ∀ (clients : List (Nat × List Char)) (bufs : Nat → List (List Char)),
      (clients.map Prod.fst).Nodup →
      (c ∈ clients.map Prod.fst →
        handleBroadcast clients msg bufs c = bufs c ++ [msg ++ ['\n']]) ∧
      (c ∉ clients.map Prod.fst → handleBroadcast clients msg bufs c = bufs c) := by
  intro clients
  induction clients with
  | nil =>
      intro bufs _
      exact ⟨fun h => absurd h (by simp), fun _ => rfl⟩
  | cons e rest ih =>
      intro bufs hnd
      have hcons : (e.fst :: rest.map Prod.fst).Nodup := by simpa using hnd
      have hhead : e.fst ∉ rest.map Prod.fst := (List.nodup_cons.mp hcons).1
      have hrest : (rest.map Prod.fst).Nodup := (List.nodup_cons.mp hcons).2
      have hunf : handleBroadcast (e :: rest) msg bufs =
          handleBroadcast rest msg (writeLine bufs e.fst (msg ++ ['\n'])) := rfl
      constructor
      · intro hc
        rw [hunf]
        rw [List.map_cons] at hc
        rcases List.mem_cons.mp hc with hceq | hcrest
        · have hcr : c ∉ rest.map Prod.fst := hceq ▸ hhead
          rw [(ih (writeLine bufs e.fst (msg ++ ['\n'])) hrest).2 hcr]
          simp [writeLine, hceq]
        · have hcne : c ≠ e.fst := fun h => hhead (h ▸ hcrest)
          rw [(ih (writeLine bufs e.fst (msg ++ ['\n'])) hrest).1 hcrest]
          simp [writeLine, hcne]
      · intro hc
        have hc1 : c ≠ e.fst := fun h => hc (by simp [h])
        have hc2 : c ∉ rest.map Prod.fst := fun h => hc (by simp [h])
        rw [hunf, (ih (writeLine bufs e.fst (msg ++ ['\n'])) hrest).2 hc2]
        simp [writeLine, hc1]

/-- C1 witness: the two-client scenario, delivery to bob. -/
theorem handleBroadcast_delivers_witness :
    (([(0, ("alice".data)), (1, ("bob".data))].map Prod.fst).Nodup) ∧
    handleBroadcast [(0, ("alice".data)), (1, ("bob".data))]
        (chatMessage ("alice".data) ("hi".data))
        (fun _ => ([] : List (List Char))) 1 =
      (fun _ => ([] : List (List Char))) 1 ++
        [chatMessage ("alice".data) ("hi".data) ++ ['\n']] :=
  ⟨by decide,
    (handleBroadcast_delivers (chatMessage ("alice".data) ("hi".data)) 1
        [(0, ("alice".data)), (1, ("bob".data))]
        (fun _ => ([] : List (List Char))) (by decide)).1 (by decide)⟩

/-- C4, counterexample: delivering to a client whose outbound channel is
full leaves that client's record — the only per-connection state the
server keeps — entirely unchanged: the drop is silent, nothing counts it.
Delivery to the other client still happens. -/
theorem broadcast_full_buffer_silent_drop :
    trySend fullAlice ("hi".data) = fullAlice ∧
    broadcast [fullAlice, bobEntry] ("hi".data) =
      [fullAlice, { bobEntry with sendChan := [("hi".data)] }] := by
  decide

/-- C4 as amended: a broadcast to a client whose bounded channel is full
does not block (the `select`-with-`default` is a total step): the payload
is dropped for that recipient, its record — buffer included — is unchanged
and nothing records the drop, while every recipient with room gets the
payload appended, and no recipient is lost. -/
theorem broadcast_drop_policy (clients : List Client) (message : List Char)
    (c : Client) (hc : c ∈ clients) :
    (sendChanCap ≤ c.sendChan.length →
      trySend c message = c ∧ c ∈ broadcast clients message) ∧
    (c.sendChan.length < sendChanCap →
      { c with sendChan := c.sendChan ++ [message] } ∈ broadcast clients message) ∧
    (broadcast clients message).length = clients.length := by
  refine ⟨?_, ?_, by simp [broadcast]⟩
  · intro hfull
    have ht : trySend c message = c := by
      unfold trySend
      rw [if_neg (by omega)]
    exact ⟨ht, List.mem_map.mpr ⟨c, hc, ht⟩⟩
  · intro hroom
    refine List.mem_map.mpr ⟨c, hc, ?_⟩
    unfold trySend
    rw [if_pos hroom]

/-- C4 witness: alice's channel holds 100 pending messages; a broadcast
drops the new payload for her and leaves her record unchanged. -/
theorem broadcast_drop_policy_witness :
    fullAlice ∈ ([fullAlice, bobEntry] : List Client) ∧
    (trySend fullAlice ("hi".data) = fullAlice ∧
      fullAlice ∈ broadcast [fullAlice, bobEntry] ("hi".data)) :=
  ⟨by decide,
    (broadcast_drop_policy [fullAlice, bobEntry] ("hi".data) fullAlice
        (by decide)).1 (by decide)⟩

theorem exists_sweep_in_window (t0 interval L timeout : Nat)
    (hpos : 0 < interval) (ht0 : t0 ≤ L) :
    ∃ k, 1 ≤ k ∧ L + timeout < sweepTime t0 interval k ∧
      sweepTime t0 interval k ≤ L + timeout + interval := by
  obtain ⟨q, hq⟩ : ∃ q, (L + timeout - t0) / interval = q := ⟨_, rfl⟩
  obtain ⟨r, hr⟩ : ∃ r, (L + timeout - t0) % interval = r := ⟨_, rfl⟩
  have hdm : interval * q + r = L + timeout - t0 := by
    rw [← hq, ← hr]; exact Nat.div_add_mod _ interval
  have hmod : r < interval := by rw [← hr]; exact Nat.mod_lt _ hpos
  obtain ⟨M, hM⟩ : ∃ M, interval * q = M := ⟨_, rfl⟩
  rw [hM] at hdm
  have hmul : (q + 1) * interval = M + interval := by
    rw [Nat.succ_mul, Nat.mul_comm, hM]
  refine ⟨q + 1, Nat.le_add_left 1 q, ?_, ?_⟩ <;>
    · unfold sweepTime
      rw [hmul]
      omega

/-- A private mailbox of the heartbeat server: the HBState with one
connection, number 7, last seen at second 10. -/
def hbScenario : HBState := { listeners := [(7, 10)], closed := [] }

/-- C2: (a) a connection whose last activity was at time `L` and that then
goes silent is evicted — deleted from `listeners` and its socket closed —
by a checker sweep that fires no later than `L + timeout + interval`;
(b) at any sweep that happens within `timeout` of the connection's last
activity the connection survives, and every received message refreshes the
last-seen stamp to the receive time, so a connection heard from at least
once per `timeout` is never evicted. -/
theorem heartbeat_eviction (timeout interval t0 L conn : Nat) (s : HBState)
    (hpos : 0 < interval) (ht0 : t0 ≤ L) (hmem : (conn, L) ∈ s.listeners) :
    (∃ k, 1 ≤ k ∧
      L + timeout < sweepTime t0 interval k ∧
      sweepTime t0 interval k ≤ L + timeout + interval ∧
      (conn, L) ∉ (heartbeatSweep timeout (sweepTime t0 interval k) s).listeners ∧
      conn ∈ (heartbeatSweep timeout (sweepTime t0 interval k) s).closed) ∧
    (∀ now, now - L ≤ timeout →
      (conn, L) ∈ (heartbeatSweep timeout now s).listeners) ∧
    (∀ now, (conn, now) ∈ touchListener s.listeners conn now) := by
  refine ⟨?_, ?_, ?_⟩
  · obtain ⟨k, hk1, hklo, hkhi⟩ :=
      exists_sweep_in_window t0 interval L timeout hpos ht0
    have hev : sweepEvicts timeout (sweepTime t0 interval k) L = true := by
      unfold sweepEvicts
      exact decide_eq_true (by omega)
    refine ⟨k, hk1, hklo, hkhi, ?_, ?_⟩
    · intro hmem2
      have hkeep := (List.mem_filter.mp hmem2).2
      rw [show ((conn, L) : Nat × Nat).snd = L from rfl, hev] at hkeep
      simp at hkeep
    · unfold heartbeatSweep
      refine List.mem_append.mpr (Or.inr (List.mem_map.mpr ⟨(conn, L), ?_, rfl⟩))
      exact List.mem_filter.mpr ⟨hmem, hev⟩
  · intro now hle
    refine List.mem_filter.mpr ⟨hmem, ?_⟩
    have hno : sweepEvicts timeout now L = false := by
      unfold sweepEvicts
      exact decide_eq_false (by omega)
    rw [show ((conn, L) : Nat × Nat).snd = L from rfl, hno]
    rfl
  · intro now
    exact List.mem_map.mpr ⟨(conn, L), hmem, by simp⟩

/-- C2 witness: timeout 90, interval 30, server start at 0, connection 7
last seen at second 10. -/
theorem heartbeat_eviction_witness :
    (0:Nat) < 30 ∧ (0:Nat) ≤ 10 ∧ ((7, 10) ∈ hbScenario.listeners) ∧
    ((∃ k, 1 ≤ k ∧
        10 + 90 < sweepTime 0 30 k ∧
        sweepTime 0 30 k ≤ 10 + 90 + 30 ∧
        (7, 10) ∉ (heartbeatSweep 90 (sweepTime 0 30 k) hbScenario).listeners ∧
        7 ∈ (heartbeatSweep 90 (sweepTime 0 30 k) hbScenario).closed) ∧
      (∀ now, now - 10 ≤ 90 →
        (7, 10) ∈ (heartbeatSweep 90 now hbScenario).listeners) ∧
      (∀ now, (7, now) ∈ touchListener hbScenario.listeners 7 now)) :=
  ⟨by decide, by decide, by decide,
    heartbeat_eviction 90 30 0 10 7 hbScenario (by decide) (by decide) (by decide)⟩

/-- C8, counterexample: the tutorial's accept loop (part_000 lines
417-424, same shape in the heartbeat server) logs and `continue`s on
EVERY accept error — also on a permanent one — so it does not exit on a
fatal error as the claim states. -/
theorem acceptLoopTutorial_counterexample :
    acceptStepTutorial .fatalError = .retryAccept ∧
    LoopAction.retryAccept ≠ LoopAction.stopLoop := by
  decide

/-- C8 as amended: the network_tcp.go accept loop retries on a temporary
`net.Error`, stops (returning the error, no panic — every step is a total
function) on any other accept error, and stops once `Shutdown` has set the
listener to nil; the tutorial's accept loop instead logs and retries on
every accept error, including permanent ones. -/
theorem acceptLoop_error_policy :
    (∀ o, acceptStep false o = .stopLoop) ∧
    acceptStep true .tempError = .retryAccept ∧
    acceptStep true .fatalError = .stopLoop ∧
    acceptStep true .newConn = .handleConn ∧
    acceptStepTutorial .tempError = .retryAccept ∧
    acceptStepTutorial .fatalError = .retryAccept :=
  ⟨fun _ => rfl, rfl, rfl, rfl, rfl, rfl⟩

/-- C6, counterexample: `Shutdown` of network_tcp.go closes the listener
and then only waits; with one client connection still active (socket 7),
the state after `Shutdown`'s mutations still has that connection — it
closes no registered connection itself (and this server keeps no registry
at all, nor does `Shutdown` take a deadline). -/
theorem shutdown_does_not_close_connections :
    (shutdownListenerPhase
        { listenerOpen := true, activeConns := [7] }).activeConns = [7] ∧
    ([7] : List Nat) ≠ ([] : List Nat) := by
  decide

/-- C6 as amended: `Shutdown` closes the listening socket — after which
the accept loop stops, so no new connection is accepted — touches no
client connection, and then waits, with no deadline, until every
`handleConnection` goroutine has finished (each closes its own socket on
exit); the wait completes exactly when no connection handler remains. -/
theorem shutdown_behavior (s : EchoServerState) (o : AcceptOutcome) :
    (shutdownListenerPhase s).listenerOpen = false ∧
    (shutdownListenerPhase s).activeConns = s.activeConns ∧
    acceptStep (shutdownListenerPhase s).listenerOpen o = .stopLoop ∧
    (shutdownWaitDone (shutdownListenerPhase s) ↔ s.activeConns = []) :=
  ⟨rfl, rfl, rfl, Iff.rfl⟩

theorem switchMessage_echo_cons (now today r : List Char) :
    switchMessage now today ('e' :: 'c' :: 'h' :: 'o' :: ':' :: r) = r := by
  unfold switchMessage
  rw [if_neg (by simp), if_neg (by simp), if_neg (by simp), if_neg (by simp),
    if_neg (by simp), if_pos (by simp [List.isPrefixOf])]
  rfl

/-- C9, counterexample: for the input `echo:a ` — an input of the form
`echo:<text>` with `<text> = "a "` — `processMessage` returns `a`, not
`<text>` exactly: the handler trims the whole line first, so trailing
whitespace of `<text>` is lost. -/
theorem processMessage_echo_counterexample :
    processMessage ("2026-01-01 00:00:00".data) ("2026-01-01".data)
        ("echo:a ".data) = ("a".data) ∧
    ("a".data) ≠ ("a ".data) := by
  decide

/-- C9 as amended: `ping` yields `pong`, `time` yields the current time,
and an input `echo:<text>` yields `<text>` with its trailing whitespace
removed (the line is trimmed before dispatch; `<text>` cannot carry
leading whitespace ahead of the prefix, so only the trailing trim is
observable). -/
theorem processMessage_tokens (now today text : List Char) :
    processMessage now today ("ping".data) = ("pong".data) ∧
    processMessage now today ("time".data) = now ∧
    processMessage now today (("echo:".data) ++ text) = trimRight text := by
  refine ⟨rfl, rfl, ?_⟩
  unfold processMessage
  have h1 : trimLeft (("echo:".data) ++ text) = ("echo:".data) ++ text :=
    trimLeft_eq_self_of_head_nonspace 'e' (("cho:".data) ++ text) (by decide)
  unfold trimSpace
  rw [h1, trimRight_append ("echo:".data) text]
  by_cases ht : trimRight text = []
  · rw [if_pos ht, ht]
    have h2 : trimRight ("echo:".data) = ("echo:".data) := by decide
    rw [h2]
    exact switchMessage_echo_cons now today []
  · rw [if_neg ht]
    exact switchMessage_echo_cons now today (trimRight text)

/-- C10: padding a message with leading and trailing whitespace does not
change the reply — `processMessage` on the padded string equals
`processMessage` on the trimmed message. -/
theorem processMessage_trim_invariant (now today wl wr m : List Char)
    (hl : ∀ c ∈ wl, goIsSpace c = true) (hr : ∀ c ∈ wr, goIsSpace c = true) :
    processMessage now today (wl ++ m ++ wr) =
      processMessage now today (trimSpace m) := by
  unfold processMessage
  rw [trimSpace_pad wl wr m hl hr, trimSpace_trimSpace]

/-- C10 witness: `"  ping "` gets the same reply as trimmed `"ping"`. -/
theorem processMessage_trim_invariant_witness :
    (∀ c ∈ (("  ".data) : List Char), goIsSpace c = true) ∧
    (∀ c ∈ ((" ".data) : List Char), goIsSpace c = true) ∧
    processMessage ("2026-01-01 00:00:00".data) ("2026-01-01".data)
        (("  ".data) ++ ("ping".data) ++ (" ".data)) =
      processMessage ("2026-01-01 00:00:00".data) ("2026-01-01".data)
        (trimSpace ("ping".data)) :=
  ⟨by decide, by decide,
    processMessage_trim_invariant ("2026-01-01 00:00:00".data)
      ("2026-01-01".data) ("  ".data) (" ".data) ("ping".data)
      (by decide) (by decide)⟩

end GoTutorial
